import Mathlib

/-!
Verification of the impression-deduplication manager
(`provisional/impmanager.go` of splitio/go-split-commons v4, vendored in mmctl).

The manager decides, per impression, whether it is routed to the backend-log
path and/or the listener path, suppressing within-window duplicates in
optimized mode, counting suppressions, and reporting a deduplication
statistic per batch.

Shallow embedding notes:
* `dtos.Impression` is modelled by `Impression`: the manager reads only
  `FeatureName` and reads/writes `Pt`; other business attributes are opaque
  (`Time` is read only by the identity-cache collaborator, `other` stands for
  the remaining opaque fields).
* The collaborators (identity-cache observer, suppression counter, stats
  sink, wall clock) are not part of the source fragment.  Their observable
  effects are modelled by a `World` state threaded through the functions:
  the observer is an arbitrary function `ObsFun σ` (parametric, since its
  implementation is external), counter increments and stats records are
  accumulated as event lists, and the clock is a function from a tick index
  to a time, advanced once per `time.Now()` call.
* The window-truncation function `util.TruncateTimeFrame` is external policy;
  the definitions are parametric in it (`trunc`).
-/

namespace ImpManager

/-- Impression DTO: the manager reads `FeatureName`, reads/writes `Pt`
(previous-time, 0 meaning no prior occurrence); `Time` and `other` model the
business attributes that are opaque to the manager. -/
structure Impression where
  FeatureName : String
  Pt : Int
  Time : Int
  other : Nat
deriving DecidableEq, Repr

/-- Telemetry statistic kinds recorded by the manager
(`telemetry.ImpressionsDeduped`). -/
inductive StatKind where
  | ImpressionsDeduped
deriving DecidableEq, Repr

/-- Behaviour of the identity-cache observer collaborator:
given its state, a feature name and the impression, `TestAndSet` returns the
previously stored timestamp (0 when none), a found flag, and the new state. -/
def ObsFun (σ : Type) : Type := σ → String → Impression → Int × Bool × σ

/-- Mutable collaborator state threaded through the manager:
observer state, the sequence of `Inc(featureName, now, amount)` calls made to
the suppression counter, the sequence of stats-sink records, and the wall
clock (`clock tick` is the value of the next `time.Now().UTC().UnixNano()`). -/
structure World (σ : Type) where
  obsState : σ
  counterIncs : List (String × Int × Int)
  statsRecords : List (StatKind × Int)
  clock : Nat → Int
  tick : Nat

/-- One call to `time.Now().UTC().UnixNano()`: yields the current clock value
and advances the tick. -/
def timeNow {σ : Type} (w : World σ) : Int × World σ :=
  (w.clock w.tick, { w with tick := w.tick + 1 })

/-- `ImpressionManagerImpl`: the configuration fields of the Go struct.
The observer and telemetry collaborators live in `World`; of the
`*ImpressionsCounter` pointer only its non-nilness is relevant to the
manager's control flow, kept as `impressionsCounterPresent`. -/
structure ImpressionManagerImpl where
  impressionsCounterPresent : Bool
  shouldAddPreviousTime : Bool
  isOptimized : Bool
  listenerEnabled : Bool
deriving DecidableEq, Repr

/-- Modelled from the spec: `conf.ManagerConfig` as seen by the manager is
two externally derived policy booleans plus `ListenerEnabled`
(`util.ShouldAddPreviousTime` / `util.ShouldBeOptimized` are not in the
source fragment). -/
structure ManagerConfig where
  addPreviousTime : Bool
  optimizeImpressions : Bool
  ListenerEnabled : Bool
deriving DecidableEq, Repr

/-- Modelled from the spec: `util.ShouldAddPreviousTime` reads the externally
derived previous-time policy boolean. -/
def ShouldAddPreviousTime (c : ManagerConfig) : Bool :=
  c.addPreviousTime

/-- Modelled from the spec: `util.ShouldBeOptimized` reads the externally
derived optimization policy boolean. -/
def ShouldBeOptimized (c : ManagerConfig) : Bool :=
  c.optimizeImpressions

/-- Cache capacity constant from the source (`lastSeenCacheSize`). -/
def lastSeenCacheSize : Int := 500000

/-- Modelled from the spec: `NewImpressionObserver` (not in the source
fragment) fails fast with a configuration error when the requested capacity
is invalid (zero or negative), and otherwise succeeds. -/
def NewImpressionObserver (size : Int) : Except String Unit :=
  if size ≤ 0 then Except.error "invalid cache size" else Except.ok ()

/-- `NewImpressionManager`: builds the manager configuration.  `isOptimized`
is `impressionCounter != nil && util.ShouldBeOptimized(managerConfig)`; the
counter pointer is modelled as `Option Unit` (non-nilness only). -/
def NewImpressionManager (managerConfig : ManagerConfig)
    (impressionCounter : Option Unit) : Except String ImpressionManagerImpl :=
  match NewImpressionObserver lastSeenCacheSize with
  | Except.error e => Except.error e
  | Except.ok _ =>
      Except.ok
        { impressionsCounterPresent := impressionCounter.isSome
          shouldAddPreviousTime := ShouldAddPreviousTime managerConfig
          isOptimized := impressionCounter.isSome && ShouldBeOptimized managerConfig
          listenerEnabled := managerConfig.ListenerEnabled }

/-- The statement `impression.Pt, _ = i.impressionObserver.TestAndSet(impression.FeatureName, &impression)`
(lines 52 and 88 of the source, identical in both entry points): writes the
observer's previous timestamp into `Pt` and updates the observer state. -/
def testAndSetPt {σ : Type} (obs : ObsFun σ) (impression : Impression)
    (s : σ) : Impression × σ :=
  let r := obs s impression.FeatureName impression
  ({ impression with Pt := r.1 }, r.2.2)

/-- The logging-inclusion condition of lines 60 and 96:
`!i.isOptimized || impression.Pt == 0 || impression.Pt < util.TruncateTimeFrame(now)`. -/
def logCondition (m : ImpressionManagerImpl) (trunc : Int → Int)
    (impression : Impression) (now : Int) : Bool :=
  !m.isOptimized || impression.Pt == 0 || decide (impression.Pt < trunc now)

/-- `processImpression` (source lines 50-69): per-item step of the batch
path.  Receives the impression by value, annotates `Pt` when enabled, takes
`now`, increments the suppression counter when optimized, and appends to
`forLog` / `forListener` according to the two inclusion decisions. -/
def processImpression {σ : Type} (obs : ObsFun σ) (m : ImpressionManagerImpl)
    (trunc : Int → Int) (impression : Impression)
    (forLog forListener : List Impression) (w : World σ) :
    List Impression × List Impression × World σ :=
  let (impression, w) :=
    if m.shouldAddPreviousTime then
      let (imp, s) := testAndSetPt obs impression w.obsState
      (imp, { w with obsState := s })
    else (impression, w)
  let (now, w) := timeNow w
  let w :=
    if m.isOptimized then
      { w with counterIncs := w.counterIncs ++ [(impression.FeatureName, now, 1)] }
    else w
  let forLog :=
    if logCondition m trunc impression now then forLog ++ [impression] else forLog
  let forListener :=
    if m.listenerEnabled then forListener ++ [impression] else forListener
  (forLog, forListener, w)

/-- Body of the batch loop `for _, impression := range impressions`:
the element is copied into `impression` and `processImpression` extends the
accumulated slices and collaborator state. -/
def batchStep {σ : Type} (obs : ObsFun σ) (m : ImpressionManagerImpl)
    (trunc : Int → Int)
    (acc : List Impression × List Impression × World σ)
    (impression : Impression) :
    List Impression × List Impression × World σ :=
  processImpression obs m trunc impression acc.1 acc.2.1 acc.2.2

/-- `ProcessImpressions` (source lines 72-82): folds `processImpression` over
the batch starting from empty output slices, then records
`ImpressionsDeduped = len(impressions) - len(forLog)` with the stats sink. -/
def ProcessImpressions {σ : Type} (obs : ObsFun σ) (m : ImpressionManagerImpl)
    (trunc : Int → Int) (impressions : List Impression) (w : World σ) :
    List Impression × List Impression × World σ :=
  let r :=
    impressions.foldl (batchStep obs m trunc)
      (([] : List Impression), ([] : List Impression), w)
  let w := r.2.2
  let w :=
    { w with statsRecords :=
        w.statsRecords ++
          [(StatKind.ImpressionsDeduped,
            (impressions.length : Int) - (r.1.length : Int))] }
  (r.1, r.2.1, w)

/-- `ProcessSingle` (source lines 86-97): same steps on a single impression,
received through a pointer.  Returns `(toLog, toListener, impression after
the call, world after the call)`; the third component models the
caller-visible pointee, mutated in place when `shouldAddPreviousTime`. -/
def ProcessSingle {σ : Type} (obs : ObsFun σ) (m : ImpressionManagerImpl)
    (trunc : Int → Int) (impression : Impression) (w : World σ) :
    Bool × Bool × Impression × World σ :=
  let (impression, w) :=
    if m.shouldAddPreviousTime then
      let (imp, s) := testAndSetPt obs impression w.obsState
      (imp, { w with obsState := s })
    else (impression, w)
  let (now, w) := timeNow w
  let w :=
    if m.isOptimized then
      { w with counterIncs := w.counterIncs ++ [(impression.FeatureName, now, 1)] }
    else w
  (logCondition m trunc impression now, m.listenerEnabled, impression, w)

/-- Modelled from the spec: a concrete identity-cache observer (the
implementation is not in the source fragment).  State is an association list
from identity key (taken here as the feature name; key derivation is a
pluggable external policy) to the last observed timestamp; `TestAndSet`
atomically returns the previously stored timestamp (0 and not-found when
none) and stores the impression's own timestamp. -/
def specObserver : ObsFun (List (String × Int)) :=
  fun s k imp =>
    match s.find? (fun p => p.1 == k) with
    | some p => (p.2, true, (k, imp.Time) :: s.eraseP (fun q => q.1 == k))
    | none => (0, false, (k, imp.Time) :: s)

/-- Modelled from the spec: an hourly window-truncation function
(`util.TruncateTimeFrame` is external policy; the bucket size is a
configuration detail, e.g. hourly), used to instantiate the parametric
`trunc` in concrete witnesses. -/
def truncHour (t : Int) : Int :=
  t - t % 3600000000000

/-- The per-item annotated copy: the impression as it stands after the
previous-time step of `processImpression` (unchanged when annotation is
disabled). -/
def annotated {σ : Type} (obs : ObsFun σ) (m : ImpressionManagerImpl)
    (impression : Impression) (w : World σ) : Impression :=
  if m.shouldAddPreviousTime then (testAndSetPt obs impression w.obsState).1
  else impression

/-- The `now` captured by a processing pass that starts in world `w`. -/
def nowOf {σ : Type} (w : World σ) : Int :=
  w.clock w.tick

/-- The collaborator state after one processing pass over `x` starting in
`w`: observer updated when annotation is enabled, clock advanced by one
call, counter incremented when optimized.  The stats sink is untouched. -/
def stepWorld {σ : Type} (obs : ObsFun σ) (m : ImpressionManagerImpl)
    (x : Impression) (w : World σ) : World σ :=
  let w1 :=
    if m.shouldAddPreviousTime then
      { w with obsState := (testAndSetPt obs x w.obsState).2 }
    else w
  let w2 := { w1 with tick := w1.tick + 1 }
  if m.isOptimized then
    { w2 with counterIncs :=
        w2.counterIncs ++ [((annotated obs m x w).FeatureName, nowOf w, 1)] }
  else w2

/-- The sequence of annotated copies produced by a batch pass, in input
order, threading the collaborator state exactly as the batch loop does. -/
def processedSeq {σ : Type} (obs : ObsFun σ) (m : ImpressionManagerImpl)
    (trunc : Int → Int) : List Impression → World σ → List Impression
  | [], _ => []
  | x :: rest, w =>
      annotated obs m x w ::
        processedSeq obs m trunc rest
          (processImpression obs m trunc x [] [] w).2.2

/-- Wrapper exposing the caller's view of the batch entry point: the Go loop
`for _, impression := range impressions` copies each element into a local
variable, `processImpression` receives the impression by value, and no
statement of the source writes through the input slice, so the caller's
slice after the call (second component) is the input unchanged. -/
def ProcessImpressionsCaller {σ : Type} (obs : ObsFun σ)
    (m : ImpressionManagerImpl) (trunc : Int → Int)
    (impressions : List Impression) (w : World σ) :
    (List Impression × List Impression × World σ) × List Impression :=
  (ProcessImpressions obs m trunc impressions w, impressions)

theorem annotated_FeatureName {σ : Type} (obs : ObsFun σ)
    (m : ImpressionManagerImpl) (x : Impression) (w : World σ) :
    (annotated obs m x w).FeatureName = x.FeatureName := by
  unfold annotated testAndSetPt
  cases m.shouldAddPreviousTime <;> simp

theorem annotated_Pt {σ : Type} (obs : ObsFun σ) (m : ImpressionManagerImpl)
    (x : Impression) (w : World σ) :
    (annotated obs m x w).Pt =
      if m.shouldAddPreviousTime then (obs w.obsState x.FeatureName x).1
      else x.Pt := by
  unfold annotated testAndSetPt
  cases m.shouldAddPreviousTime <;> simp

theorem annotated_no_prev {σ : Type} (obs : ObsFun σ)
    (m : ImpressionManagerImpl) (x : Impression) (w : World σ)
    (h : m.shouldAddPreviousTime = false) :
    annotated obs m x w = x := by
  unfold annotated
  simp [h]

theorem logCondition_iff (m : ImpressionManagerImpl) (trunc : Int → Int)
    (x : Impression) (now : Int) :
    logCondition m trunc x now = true ↔
      (m.isOptimized = false ∨ x.Pt = 0 ∨ x.Pt < trunc now) := by
  simp [logCondition, or_assoc]

theorem processImpression_eq {σ : Type} (obs : ObsFun σ)
    (m : ImpressionManagerImpl) (trunc : Int → Int) (x : Impression)
    (fl fll : List Impression) (w : World σ) :
    processImpression obs m trunc x fl fll w =
      ((if logCondition m trunc (annotated obs m x w) (nowOf w) then
          fl ++ [annotated obs m x w] else fl),
       (if m.listenerEnabled then fll ++ [annotated obs m x w] else fll),
       stepWorld obs m x w) := by
  unfold processImpression annotated stepWorld nowOf timeNow testAndSetPt
  cases h1 : m.shouldAddPreviousTime <;> cases h2 : m.isOptimized <;>
    simp [h1, h2, annotated_FeatureName]

theorem ProcessSingle_eq {σ : Type} (obs : ObsFun σ)
    (m : ImpressionManagerImpl) (trunc : Int → Int) (x : Impression)
    (w : World σ) :
    ProcessSingle obs m trunc x w =
      (logCondition m trunc (annotated obs m x w) (nowOf w),
       m.listenerEnabled, annotated obs m x w, stepWorld obs m x w) := by
  unfold ProcessSingle annotated stepWorld nowOf timeNow testAndSetPt
  cases h1 : m.shouldAddPreviousTime <;> cases h2 : m.isOptimized <;>
    simp [h1, h2, annotated_FeatureName]

theorem processImpression_world {σ : Type} (obs : ObsFun σ)
    (m : ImpressionManagerImpl) (trunc : Int → Int) (x : Impression)
    (fl fll : List Impression) (w : World σ) :
    (processImpression obs m trunc x fl fll w).2.2 = stepWorld obs m x w := by
  rw [processImpression_eq]

theorem stepWorld_statsRecords {σ : Type} (obs : ObsFun σ)
    (m : ImpressionManagerImpl) (x : Impression) (w : World σ) :
    (stepWorld obs m x w).statsRecords = w.statsRecords := by
  unfold stepWorld
  cases h1 : m.shouldAddPreviousTime <;> cases h2 : m.isOptimized <;>
    simp [h1, h2]

theorem stepWorld_counterIncs {σ : Type} (obs : ObsFun σ)
    (m : ImpressionManagerImpl) (x : Impression) (w : World σ) :
    (stepWorld obs m x w).counterIncs =
      w.counterIncs ++
        (if m.isOptimized then [(x.FeatureName, nowOf w, 1)] else []) := by
  unfold stepWorld
  cases h1 : m.shouldAddPreviousTime <;> cases h2 : m.isOptimized <;>
    simp [h1, h2, annotated_FeatureName]

theorem foldl_batchStep_shape {σ : Type} (obs : ObsFun σ)
    (m : ImpressionManagerImpl) (trunc : Int → Int) (xs : List Impression) :
    ∀ (fl fll : List Impression) (w : World σ),
    List.foldl (batchStep obs m trunc) (fl, fll, w) xs =
      (fl ++ (List.foldl (batchStep obs m trunc) ([], [], w) xs).1,
       fll ++ (List.foldl (batchStep obs m trunc) ([], [], w) xs).2.1,
       (List.foldl (batchStep obs m trunc) ([], [], w) xs).2.2) := by
  induction xs with
  | nil => intro fl fll w; simp
  | cons x rest ih =>
      intro fl fll w
      simp only [List.foldl_cons, batchStep]
      rw [processImpression_eq, processImpression_eq]
      conv_lhs => rw [ih]
      conv_rhs => rw [ih]
      cases hc : logCondition m trunc (annotated obs m x w) (nowOf w) <;>
        cases hl : m.listenerEnabled <;>
          simp [hc, hl, List.append_assoc]

theorem batch_aux_cons {σ : Type} (obs : ObsFun σ)
    (m : ImpressionManagerImpl) (trunc : Int → Int) (x : Impression)
    (rest : List Impression) (w : World σ) :
    List.foldl (batchStep obs m trunc) ([], [], w) (x :: rest) =
      ((if logCondition m trunc (annotated obs m x w) (nowOf w) then
          [annotated obs m x w] else []) ++
        (List.foldl (batchStep obs m trunc)
          ([], [], stepWorld obs m x w) rest).1,
       (if m.listenerEnabled then [annotated obs m x w] else []) ++
        (List.foldl (batchStep obs m trunc)
          ([], [], stepWorld obs m x w) rest).2.1,
       (List.foldl (batchStep obs m trunc)
          ([], [], stepWorld obs m x w) rest).2.2) := by
  simp only [List.foldl_cons, batchStep]
  rw [processImpression_eq]
  rw [foldl_batchStep_shape]
  cases hc : logCondition m trunc (annotated obs m x w) (nowOf w) <;>
    cases hl : m.listenerEnabled <;> simp [hc, hl]

theorem batch_statsRecords {σ : Type} (obs : ObsFun σ)
    (m : ImpressionManagerImpl) (trunc : Int → Int) (xs : List Impression) :
    ∀ (w : World σ),
    (List.foldl (batchStep obs m trunc) ([], [], w) xs).2.2.statsRecords =
      w.statsRecords := by
  induction xs with
  | nil => intro w; simp
  | cons x rest ih =>
      intro w
      rw [batch_aux_cons, ih, stepWorld_statsRecords]

theorem processedSeq_cons {σ : Type} (obs : ObsFun σ)
    (m : ImpressionManagerImpl) (trunc : Int → Int) (x : Impression)
    (rest : List Impression) (w : World σ) :
    processedSeq obs m trunc (x :: rest) w =
      annotated obs m x w ::
        processedSeq obs m trunc rest (stepWorld obs m x w) := by
  rw [processedSeq, processImpression_world]

theorem processedSeq_length {σ : Type} (obs : ObsFun σ)
    (m : ImpressionManagerImpl) (trunc : Int → Int) (xs : List Impression) :
    ∀ (w : World σ),
    (processedSeq obs m trunc xs w).length = xs.length := by
  induction xs with
  | nil => intro w; rfl
  | cons x rest ih =>
      intro w
      rw [processedSeq_cons]
      simp [ih]

theorem batch_sublists {σ : Type} (obs : ObsFun σ)
    (m : ImpressionManagerImpl) (trunc : Int → Int) (xs : List Impression) :
    ∀ (w : World σ),
    List.Sublist (List.foldl (batchStep obs m trunc) ([], [], w) xs).1
        (processedSeq obs m trunc xs w) ∧
      List.Sublist (List.foldl (batchStep obs m trunc) ([], [], w) xs).2.1
        (processedSeq obs m trunc xs w) := by
  induction xs with
  | nil => intro w; simp [processedSeq]
  | cons x rest ih =>
      intro w
      rw [batch_aux_cons, processedSeq_cons]
      refine ⟨?_, ?_⟩
      · cases hc : logCondition m trunc (annotated obs m x w) (nowOf w)
        · simpa [hc] using
            ((ih (stepWorld obs m x w)).1.cons (annotated obs m x w))
        · simpa [hc] using
            ((ih (stepWorld obs m x w)).1.cons₂ (annotated obs m x w))
      · cases hl : m.listenerEnabled
        · simpa [hl] using
            ((ih (stepWorld obs m x w)).2.cons (annotated obs m x w))
        · simpa [hl] using
            ((ih (stepWorld obs m x w)).2.cons₂ (annotated obs m x w))

theorem batch_listener {σ : Type} (obs : ObsFun σ)
    (m : ImpressionManagerImpl) (trunc : Int → Int) (xs : List Impression) :
    ∀ (w : World σ),
    (List.foldl (batchStep obs m trunc) ([], [], w) xs).2.1 =
      (if m.listenerEnabled then processedSeq obs m trunc xs w else []) := by
  induction xs with
  | nil => intro w; cases m.listenerEnabled <;> simp [processedSeq]
  | cons x rest ih =>
      intro w
      rw [batch_aux_cons, processedSeq_cons, ih]
      cases hl : m.listenerEnabled <;> simp [hl]

theorem processedSeq_no_prev {σ : Type} (obs : ObsFun σ)
    (m : ImpressionManagerImpl) (trunc : Int → Int) (xs : List Impression)
    (h : m.shouldAddPreviousTime = false) :
    ∀ (w : World σ), processedSeq obs m trunc xs w = xs := by
  induction xs with
  | nil => intro w; rfl
  | cons x rest ih =>
      intro w
      rw [processedSeq_cons, annotated_no_prev _ _ _ _ h, ih]

theorem ProcessImpressions_fst {σ : Type} (obs : ObsFun σ)
    (m : ImpressionManagerImpl) (trunc : Int → Int) (xs : List Impression)
    (w : World σ) :
    (ProcessImpressions obs m trunc xs w).1 =
      (List.foldl (batchStep obs m trunc) ([], [], w) xs).1 := rfl

theorem ProcessImpressions_snd {σ : Type} (obs : ObsFun σ)
    (m : ImpressionManagerImpl) (trunc : Int → Int) (xs : List Impression)
    (w : World σ) :
    (ProcessImpressions obs m trunc xs w).2.1 =
      (List.foldl (batchStep obs m trunc) ([], [], w) xs).2.1 := rfl

theorem annotated_Time {σ : Type} (obs : ObsFun σ)
    (m : ImpressionManagerImpl) (x : Impression) (w : World σ) :
    (annotated obs m x w).Time = x.Time := by
  unfold annotated testAndSetPt
  cases m.shouldAddPreviousTime <;> simp

theorem annotated_other {σ : Type} (obs : ObsFun σ)
    (m : ImpressionManagerImpl) (x : Impression) (w : World σ) :
    (annotated obs m x w).other = x.other := by
  unfold annotated testAndSetPt
  cases m.shouldAddPreviousTime <;> simp

/-- Sample impression used by the concrete witnesses. -/
def sampleImp : Impression :=
  { FeatureName := "f1", Pt := 0, Time := 50, other := 0 }

/-- Sample initial world for the concrete witnesses: empty observer cache,
no counter or stats events yet, clock fixed at 1000. -/
def sampleWorld : World (List (String × Int)) :=
  { obsState := [], counterIncs := [], statsRecords := [],
    clock := fun _ => 1000, tick := 0 }

/-- C1: for every processed impression (per-item step of the batch path, or
`ProcessSingle`), the impression is routed to the log (`toLog` true /
appended to `forLog`) if and only if optimization is disabled, or the
impression's (post-annotation) `Pt` is 0, or `Pt` is strictly below the
window truncation of the current time `now`. -/
theorem C1_logging_inclusion {σ : Type} (obs : ObsFun σ)
    (m : ImpressionManagerImpl) (trunc : Int → Int) (x : Impression)
    (fl fll : List Impression) (w : World σ) :
    ((ProcessSingle obs m trunc x w).1 = true ↔
      (m.isOptimized = false ∨ (ProcessSingle obs m trunc x w).2.2.1.Pt = 0 ∨
        (ProcessSingle obs m trunc x w).2.2.1.Pt < trunc (nowOf w)))
    ∧ ((processImpression obs m trunc x fl fll w).1 =
          fl ++ [annotated obs m x w] ↔
        (m.isOptimized = false ∨ (annotated obs m x w).Pt = 0 ∨
          (annotated obs m x w).Pt < trunc (nowOf w)))
    ∧ ((processImpression obs m trunc x fl fll w).1 = fl ↔
        ¬(m.isOptimized = false ∨ (annotated obs m x w).Pt = 0 ∨
          (annotated obs m x w).Pt < trunc (nowOf w))) := by
  rw [ProcessSingle_eq, processImpression_eq]
  refine ⟨?_, ?_, ?_⟩
  · simpa using logCondition_iff m trunc (annotated obs m x w) (nowOf w)
  · cases hc : logCondition m trunc (annotated obs m x w) (nowOf w)
    · simp only [hc, if_neg Bool.false_ne_true]
      simp [← logCondition_iff, hc]
    · simp only [hc, if_pos rfl]
      simp [← logCondition_iff, hc]
  · cases hc : logCondition m trunc (annotated obs m x w) (nowOf w)
    · simp only [hc, if_neg Bool.false_ne_true]
      simp [← logCondition_iff, hc]
    · simp only [hc, if_pos rfl]
      simp [← logCondition_iff, hc]

/-- C2: each `ProcessImpressions` call appends exactly one
deduplicated-impressions record to the stats sink, whose value is the input
length minus the `forLog` length; an empty batch records 0. -/
theorem C2_deduped_stat {σ : Type} (obs : ObsFun σ)
    (m : ImpressionManagerImpl) (trunc : Int → Int) (xs : List Impression)
    (w : World σ) :
    ((ProcessImpressions obs m trunc xs w).2.2.statsRecords =
      w.statsRecords ++
        [(StatKind.ImpressionsDeduped,
          (xs.length : Int) -
            ((ProcessImpressions obs m trunc xs w).1.length : Int))])
    ∧ (ProcessImpressions obs m trunc [] w).2.2.statsRecords =
        w.statsRecords ++ [(StatKind.ImpressionsDeduped, 0)] := by
  constructor
  · show (List.foldl (batchStep obs m trunc) ([], [], w) xs).2.2.statsRecords
        ++ _ = _
    rw [batch_statsRecords, ProcessImpressions_fst]
  · show w.statsRecords ++ _ = _
    norm_num

/-- C3: per processed impression, the suppression counter receives exactly
one increment of amount 1 for the impression's feature name when
`isOptimized` is true, and none when it is false, independently of the
logging decision (both entry points). -/
theorem C3_counter_increment {σ : Type} (obs : ObsFun σ)
    (m : ImpressionManagerImpl) (trunc : Int → Int) (x : Impression)
    (fl fll : List Impression) (w : World σ) :
    ((ProcessSingle obs m trunc x w).2.2.2.counterIncs =
      w.counterIncs ++
        (if m.isOptimized then [(x.FeatureName, nowOf w, 1)] else []))
    ∧ ((processImpression obs m trunc x fl fll w).2.2.counterIncs =
      w.counterIncs ++
        (if m.isOptimized then [(x.FeatureName, nowOf w, 1)] else [])) := by
  rw [ProcessSingle_eq, processImpression_world]
  exact ⟨stepWorld_counterIncs obs m x w, stepWorld_counterIncs obs m x w⟩

/-- C5: the single-impression entry point applies exactly the per-item
decision procedure of the batch path: the per-item step appends to the two
slices precisely according to `ProcessSingle`'s two booleans, appends the
same annotated impression, produces the same collaborator state, and
`ProcessSingle` reports no statistic. -/
theorem C5_single_matches_batch_step {σ : Type} (obs : ObsFun σ)
    (m : ImpressionManagerImpl) (trunc : Int → Int) (x : Impression)
    (fl fll : List Impression) (w : World σ) :
    (processImpression obs m trunc x fl fll w =
      ((if (ProcessSingle obs m trunc x w).1 then
          fl ++ [(ProcessSingle obs m trunc x w).2.2.1] else fl),
       (if (ProcessSingle obs m trunc x w).2.1 then
          fll ++ [(ProcessSingle obs m trunc x w).2.2.1] else fll),
       (ProcessSingle obs m trunc x w).2.2.2))
    ∧ (ProcessSingle obs m trunc x w).2.2.2.statsRecords = w.statsRecords := by
  rw [processImpression_eq, ProcessSingle_eq]
  exact ⟨rfl, stepWorld_statsRecords obs m x w⟩

/-- C4 counterexample: with previous-time annotation enabled and an identity
the observer has never seen, a caller-supplied non-zero `Pt` (100) is
overwritten to 0 by a single processing pass — `Pt` is both decreased and
cleared, refuting the claim that the write never decreases `Pt` and never
resets a non-zero `Pt` to zero. -/
theorem C4_counterexample :
    (ProcessSingle specObserver
        { impressionsCounterPresent := false, shouldAddPreviousTime := true,
          isOptimized := false, listenerEnabled := false }
        truncHour
        { FeatureName := "f1", Pt := 100, Time := 50, other := 0 }
        sampleWorld).2.2.1.Pt = 0
    ∧ ((100 : Int) ≠ 0 ∧ (0 : Int) < 100) := by
  exact ⟨rfl, by norm_num⟩

/-- C4 (amended): during a single processing pass the Manager writes `Pt` at
most once, only when `shouldAddPreviousTime` is true, and the written value
is the observer's previously stored timestamp (0 when none), irrespective of
the caller-supplied `Pt`; no other field of the impression is written. -/
theorem C4_pt_write {σ : Type} (obs : ObsFun σ) (m : ImpressionManagerImpl)
    (trunc : Int → Int) (x : Impression) (w : World σ) :
    ((ProcessSingle obs m trunc x w).2.2.1.Pt =
      (if m.shouldAddPreviousTime then (obs w.obsState x.FeatureName x).1
       else x.Pt))
    ∧ ((annotated obs m x w).Pt =
      (if m.shouldAddPreviousTime then (obs w.obsState x.FeatureName x).1
       else x.Pt))
    ∧ (ProcessSingle obs m trunc x w).2.2.1.FeatureName = x.FeatureName
    ∧ (ProcessSingle obs m trunc x w).2.2.1.Time = x.Time
    ∧ (ProcessSingle obs m trunc x w).2.2.1.other = x.other := by
  rw [ProcessSingle_eq]
  exact ⟨annotated_Pt obs m x w, annotated_Pt obs m x w,
    annotated_FeatureName obs m x w, annotated_Time obs m x w,
    annotated_other obs m x w⟩

/-- C6: when `shouldAddPreviousTime` is false the Manager never writes `Pt`:
`ProcessSingle` returns the impression exactly as supplied, and every
impression in either output of `ProcessImpressions` is an element of the
input (hence carries the caller-supplied `Pt`). -/
theorem C6_no_write_when_disabled {σ : Type} (obs : ObsFun σ)
    (m : ImpressionManagerImpl) (trunc : Int → Int) (x : Impression)
    (xs : List Impression) (w : World σ)
    (h : m.shouldAddPreviousTime = false) :
    (ProcessSingle obs m trunc x w).2.2.1 = x
    ∧ (∀ y ∈ (ProcessImpressions obs m trunc xs w).1, y ∈ xs)
    ∧ (∀ y ∈ (ProcessImpressions obs m trunc xs w).2.1, y ∈ xs) := by
  refine ⟨?_, ?_, ?_⟩
  · rw [ProcessSingle_eq]
    exact annotated_no_prev obs m x w h
  · intro y hy
    rw [ProcessImpressions_fst] at hy
    have hs := (batch_sublists obs m trunc xs w).1
    rw [processedSeq_no_prev obs m trunc xs h w] at hs
    exact hs.subset hy
  · intro y hy
    rw [ProcessImpressions_snd] at hy
    have hs := (batch_sublists obs m trunc xs w).2
    rw [processedSeq_no_prev obs m trunc xs h w] at hs
    exact hs.subset hy

/-- C6 witness: the theorem applied to a concrete non-annotating manager,
impression and world. -/
theorem C6_witness :
    ({ impressionsCounterPresent := false, shouldAddPreviousTime := false,
       isOptimized := false, listenerEnabled := true } :
        ImpressionManagerImpl).shouldAddPreviousTime = false
    ∧ ((ProcessSingle specObserver
          { impressionsCounterPresent := false,
            shouldAddPreviousTime := false, isOptimized := false,
            listenerEnabled := true } truncHour sampleImp
          sampleWorld).2.2.1 = sampleImp
        ∧ (∀ y ∈ (ProcessImpressions specObserver
            { impressionsCounterPresent := false,
              shouldAddPreviousTime := false, isOptimized := false,
              listenerEnabled := true } truncHour [sampleImp]
            sampleWorld).1, y ∈ [sampleImp])
        ∧ (∀ y ∈ (ProcessImpressions specObserver
            { impressionsCounterPresent := false,
              shouldAddPreviousTime := false, isOptimized := false,
              listenerEnabled := true } truncHour [sampleImp]
            sampleWorld).2.1, y ∈ [sampleImp])) :=
  ⟨rfl, C6_no_write_when_disabled specObserver
    { impressionsCounterPresent := false, shouldAddPreviousTime := false,
      isOptimized := false, listenerEnabled := true }
    truncHour sampleImp [sampleImp] sampleWorld rfl⟩

/-- C7: the listener decision is exactly the `listenerEnabled` flag:
`toListener` equals the flag, `forListener` is empty when the flag is false
and contains the annotated copy of every input impression, in order, when it
is true. -/
theorem C7_listener_decision {σ : Type} (obs : ObsFun σ)
    (m : ImpressionManagerImpl) (trunc : Int → Int) (x : Impression)
    (xs : List Impression) (w : World σ) :
    (ProcessSingle obs m trunc x w).2.1 = m.listenerEnabled
    ∧ (ProcessImpressions obs m trunc xs w).2.1 =
        (if m.listenerEnabled then processedSeq obs m trunc xs w else [])
    ∧ (processedSeq obs m trunc xs w).length = xs.length := by
  refine ⟨?_, ?_, processedSeq_length obs m trunc xs w⟩
  · rw [ProcessSingle_eq]
  · rw [ProcessImpressions_snd, batch_listener]

/-- C8: both outputs of `ProcessImpressions` are subsequences of the
annotated input sequence (which has the input's length), so each output has
length at most the input length and preserves the relative input order of
its elements. -/
theorem C8_outputs_ordered_subsequences {σ : Type} (obs : ObsFun σ)
    (m : ImpressionManagerImpl) (trunc : Int → Int) (xs : List Impression)
    (w : World σ) :
    List.Sublist (ProcessImpressions obs m trunc xs w).1
        (processedSeq obs m trunc xs w)
    ∧ List.Sublist (ProcessImpressions obs m trunc xs w).2.1
        (processedSeq obs m trunc xs w)
    ∧ (processedSeq obs m trunc xs w).length = xs.length
    ∧ (ProcessImpressions obs m trunc xs w).1.length ≤ xs.length
    ∧ (ProcessImpressions obs m trunc xs w).2.1.length ≤ xs.length := by
  have h1 := (batch_sublists obs m trunc xs w).1
  have h2 := (batch_sublists obs m trunc xs w).2
  rw [← ProcessImpressions_fst] at h1
  rw [← ProcessImpressions_snd] at h2
  have hlen := processedSeq_length obs m trunc xs w
  exact ⟨h1, h2, hlen, hlen ▸ h1.length_le, hlen ▸ h2.length_le⟩

/-- C9: the constructor forces `isOptimized` to false when given a nil
counter, so whenever a constructed manager has `isOptimized` true the
counter is non-null and the counter-increment branch never dereferences a
nil pointer. -/
theorem C9_optimized_requires_counter (cfg : ManagerConfig)
    (counter : Option Unit) (m : ImpressionManagerImpl)
    (hok : NewImpressionManager cfg counter = Except.ok m)
    (hopt : m.isOptimized = true) :
    counter.isSome = true ∧ m.impressionsCounterPresent = true := by
  have hred : NewImpressionManager cfg counter =
      Except.ok
        { impressionsCounterPresent := counter.isSome
          shouldAddPreviousTime := ShouldAddPreviousTime cfg
          isOptimized := counter.isSome && ShouldBeOptimized cfg
          listenerEnabled := cfg.ListenerEnabled } := rfl
  rw [hred] at hok
  injection hok with hm
  subst hm
  simp only [Bool.and_eq_true] at hopt
  exact ⟨hopt.1, hopt.1⟩

/-- C9 witness: the theorem applied to a concrete configuration with a
non-null counter and optimization requested. -/
theorem C9_witness :
    (some () : Option Unit).isSome = true ∧
      ({ impressionsCounterPresent := true, shouldAddPreviousTime := true,
         isOptimized := true, listenerEnabled := true } :
          ImpressionManagerImpl).impressionsCounterPresent = true :=
  C9_optimized_requires_counter
    { addPreviousTime := true, optimizeImpressions := true,
      ListenerEnabled := true }
    (some ())
    { impressionsCounterPresent := true, shouldAddPreviousTime := true,
      isOptimized := true, listenerEnabled := true }
    rfl rfl

/-- C10: the batch entry point never mutates the caller's input — the
caller's slice after the call is exactly the supplied sequence, while the
`Pt` annotation is visible only through the returned sequences, whose
elements are the annotated copies; only `ProcessSingle` hands the annotated
impression back through its (pointer) argument. -/
theorem C10_input_not_mutated {σ : Type} (obs : ObsFun σ)
    (m : ImpressionManagerImpl) (trunc : Int → Int) (x : Impression)
    (xs : List Impression) (w : World σ) :
    (ProcessImpressionsCaller obs m trunc xs w).2 = xs
    ∧ (ProcessSingle obs m trunc x w).2.2.1 = annotated obs m x w
    ∧ (∀ y ∈ (ProcessImpressionsCaller obs m trunc xs w).1.1,
        y ∈ processedSeq obs m trunc xs w)
    ∧ (∀ y ∈ (ProcessImpressionsCaller obs m trunc xs w).1.2.1,
        y ∈ processedSeq obs m trunc xs w) := by
  refine ⟨rfl, ?_, ?_, ?_⟩
  · rw [ProcessSingle_eq]
  · intro y hy
    rw [show (ProcessImpressionsCaller obs m trunc xs w).1.1 =
        (List.foldl (batchStep obs m trunc) ([], [], w) xs).1 from rfl] at hy
    exact (batch_sublists obs m trunc xs w).1.subset hy
  · intro y hy
    rw [show (ProcessImpressionsCaller obs m trunc xs w).1.2.1 =
        (List.foldl (batchStep obs m trunc) ([], [], w) xs).2.1 from rfl] at hy
    exact (batch_sublists obs m trunc xs w).2.subset hy

end ImpManager
